import Mathlib

/-!
Verification of the papercitation source-resolution and citation-formatting
engine.  The TypeScript sources are shallowly embedded: pure functions become
Lean functions over `String`/`List Char`; JavaScript exceptions (the only one
reachable here is the `TypeError` thrown by `p[0].toUpperCase()` on an empty
token) are modelled with `Option`, `none` standing for a thrown exception;
JavaScript truthiness on optional strings (`undefined` and `""` are falsy) is
modelled by `jsTruthyOpt` / `jsOrS`; `Array.prototype.sort`, stable with the
comparator `scoreB - scoreA` (ES2019), is modelled by a stable descending
insertion sort.
-/

/-- ASCII lower-casing of one character, the fragment of
`String.prototype.toLowerCase` exercised by the classifier. -/
def asciiLower (c : Char) : Char :=
  match c with
  | 'A' => 'a' | 'B' => 'b' | 'C' => 'c' | 'D' => 'd' | 'E' => 'e' | 'F' => 'f'
  | 'G' => 'g' | 'H' => 'h' | 'I' => 'i' | 'J' => 'j' | 'K' => 'k' | 'L' => 'l'
  | 'M' => 'm' | 'N' => 'n' | 'O' => 'o' | 'P' => 'p' | 'Q' => 'q' | 'R' => 'r'
  | 'S' => 's' | 'T' => 't' | 'U' => 'u' | 'V' => 'v' | 'W' => 'w' | 'X' => 'x'
  | 'Y' => 'y' | 'Z' => 'z'
  | c => c

/-- ASCII upper-casing of one character (`p[0].toUpperCase()`). -/
def asciiUpper (c : Char) : Char :=
  match c with
  | 'a' => 'A' | 'b' => 'B' | 'c' => 'C' | 'd' => 'D' | 'e' => 'E' | 'f' => 'F'
  | 'g' => 'G' | 'h' => 'H' | 'i' => 'I' | 'j' => 'J' | 'k' => 'K' | 'l' => 'L'
  | 'm' => 'M' | 'n' => 'N' | 'o' => 'O' | 'p' => 'P' | 'q' => 'Q' | 'r' => 'R'
  | 's' => 'S' | 't' => 'T' | 'u' => 'U' | 'v' => 'V' | 'w' => 'W' | 'x' => 'X'
  | 'y' => 'Y' | 'z' => 'Z'
  | c => c

/-- The ASCII whitespace class of the JavaScript regex `\s` and of
`String.prototype.trim`. -/
def wsJS (c : Char) : Bool :=
  c == ' ' || c == '\t' || c == '\n' || c == '\r' || c == '\x0b' || c == '\x0c'

/-- Drop leading and trailing whitespace from a character list
(`String.prototype.trim`). -/
def trimL (l : List Char) : List Char :=
  ((l.dropWhile wsJS).reverse.dropWhile wsJS).reverse

/-- `source.trim()`. -/
def strTrim (s : String) : String := ⟨trimL s.data⟩

/-- `source.toLowerCase()` (ASCII fragment). -/
def strLower (s : String) : String := ⟨s.data.map asciiLower⟩

/-- Does the first list start with the second (`String.prototype.startsWith`)? -/
def startsWithL : List Char → List Char → Bool
  | _, [] => true
  | [], _ :: _ => false
  | c :: cs, d :: ds => c == d && startsWithL cs ds

/-- Does the first list contain the second as a contiguous run
(`String.prototype.includes`)? -/
def containsL : List Char → List Char → Bool
  | [], sub => startsWithL [] sub
  | c :: cs, sub => startsWithL (c :: cs) sub || containsL cs sub

/-- `s.startsWith t`. -/
def startsWithS (s t : String) : Bool := startsWithL s.data t.data

/-- `s.includes t`. -/
def containsS (s t : String) : Bool := containsL s.data t.data

/-- `name.split(" ")` on the character level: split at every single space,
keeping empty pieces, never returning an empty list. -/
def splitSp : List Char → List (List Char)
  | [] => [[]]
  | c :: cs =>
    let r := splitSp cs
    if c == ' ' then [] :: r
    else
      match r with
      | [] => [[c]]
      | h :: t => (c :: h) :: t

/-- `name.split(" ")`. -/
def splitTokens (s : String) : List String := (splitSp s.data).map String.mk

/-- `arr.join(sep)`. -/
def joinSep (sep : String) : List String → String
  | [] => ""
  | [x] => x
  | x :: xs => x ++ sep ++ joinSep sep xs

/-- JavaScript `a || b` on an optional string against a string default:
`undefined` and `""` are falsy. -/
def jsOrS (a : Option String) (b : String) : String :=
  match a with
  | none => b
  | some s => if s = "" then b else s

/-- JavaScript `a || b` on two optional strings. -/
def jsOrOpt (a b : Option String) : Option String :=
  match a with
  | none => b
  | some s => if s = "" then b else some s

/-- JavaScript truthiness of an optional string. -/
def jsTruthyOpt : Option String → Bool
  | none => false
  | some s => !(s == "")

/-- Sequence a list of options, failing at the first `none` (the way a
JavaScript `map` callback propagates its first thrown exception). -/
def optList : List (Option α) → Option (List α)
  | [] => some []
  | none :: _ => none
  | some a :: rest => (optList rest).map (a :: ·)

/-- Decimal digits of a positive number, fuel-recursive so that the kernel
can evaluate it. -/
def natToStrAux : Nat → Nat → List Char
  | 0, _ => []
  | fuel + 1, n =>
    if n = 0 then []
    else natToStrAux fuel (n / 10) ++ [Char.ofNat (48 + n % 10)]

/-- Decimal rendering of a natural number (`Number.prototype.toString`). -/
def natToStr (n : Nat) : String :=
  if n = 0 then "0" else ⟨natToStrAux (n + 1) n⟩

/-- Decimal rendering of an integer. -/
def intToStr (i : Int) : String :=
  if i < 0 then "-" ++ natToStr i.natAbs else natToStr i.toNat

/-- Accumulating value of a leading digit run. -/
def digitsVal : List Char → Nat → Nat
  | [], acc => acc
  | c :: cs, acc =>
    if c.isDigit then digitsVal cs (acc * 10 + (c.toNat - 48)) else acc

/-- JavaScript `parseInt` restricted to the non-negative strings the code
feeds it: the value of the maximal leading digit run, `none` for `NaN`. -/
def jsParseIntNat (s : String) : Option Nat :=
  match s.data with
  | [] => none
  | c :: cs => if c.isDigit then some (digitsVal (c :: cs) 0) else none

/-- `SourceType` from `src/types.ts`. -/
inductive SourceType where
  | website
  | book
  | article
  | video
  | encyclopedia
deriving DecidableEq, Repr

/-- `InputType` from `src/types.ts`. -/
inductive InputType where
  | doi
  | isbn
  | youtube
  | wikipedia
  | url
  | text
deriving DecidableEq, Repr

/-- Provenance tag of a search candidate (`SearchResult.source`). -/
inductive ProviderTag where
  | google_books
  | openlibrary
  | crossref
deriving DecidableEq, Repr

/-- The part of a Google Books volume payload read back by
`getUrlFromResult`. -/
structure VolumeInfo where
  infoLink : Option String
deriving DecidableEq, Repr

/-- The part of the opaque provider payload (`SearchResult.raw`) read back by
`getUrlFromResult`. -/
structure RawPayload where
  volumeInfo : Option VolumeInfo
  id : String
  key : String
deriving DecidableEq, Repr

/-- `SearchResult` from `src/types.ts`. -/
structure SearchResult where
  id : String
  title : String
  authors : List String
  year : Option String
  publisher : Option String
  type : SourceType
  source : ProviderTag
  raw : RawPayload
deriving DecidableEq, Repr

/-- `SourceMetadata` from `src/types.ts`. -/
structure SourceMetadata where
  id : Option String
  authors : List String
  title : String
  siteName : String
  publisher : Option String
  year : Option String
  month : Option String
  day : Option String
  url : String
  accessDate : String
  type : SourceType
deriving DecidableEq, Repr

/-- `Citations` from `src/types.ts`. -/
structure Citations where
  apa7 : String
  mla9 : String
  chicago : String
  harvard : String
deriving DecidableEq, Repr

/-- `source.replace(/[-\s]/g, "")` — the ISBN cleaning step. -/
def stripISBN (s : String) : String :=
  ⟨s.data.filter (fun c => !(c == '-' || wsJS c))⟩

/-- `/^(?:\d{10}|\d{13})$/.test s`. -/
def isbnShape (s : String) : Bool :=
  s.data.all (·.isDigit) && (s.data.length == 10 || s.data.length == 13)

/-- `detectInputType` from `src/detect.ts` (identical to `detectSourceType`
in `src/index.ts`). -/
def detectInputType (source : String) : InputType :=
  let s := strLower (strTrim source)
  if startsWithS s "10." || containsS s "doi.org/" then InputType.doi
  else if isbnShape (stripISBN source) then InputType.isbn
  else if containsS s "youtube.com" || containsS s "youtu.be" then InputType.youtube
  else if containsS s "wikipedia.org" then InputType.wikipedia
  else if startsWithS s "http://" || startsWithS s "https://" then InputType.url
  else InputType.text

/-- Initial of an author-name token: `p[0].toUpperCase() + "."`; `none`
models the `TypeError` JavaScript throws when the token is empty. -/
def initialOf (p : String) : Option String :=
  match p.data with
  | [] => none
  | c :: _ => some ⟨[asciiUpper c, '.']⟩

/-- One name in the APA author formatter of `src/lib/authors.ts` (the map
callback shared verbatim with the copy in `src/index.ts`): split on spaces,
single-token names unchanged, otherwise last token is the family name and
previous tokens become space-joined initials. -/
def formatOneAPA (name : String) : Option String :=
  match splitTokens name with
  | [] => some name
  | [_] => some name
  | parts => do
    let lastName := (parts.getLast?).getD ""
    let inits ← optList (parts.dropLast.map initialOf)
    pure (lastName ++ ", " ++ joinSep " " inits)

/-- `formatAuthorAPA` from `src/lib/authors.ts`: formatted names joined with
`", "` between the earlier authors and `", & "` before the last. -/
def formatAuthorAPA (authors : List String) : Option String :=
  if authors.length = 0 then some "Unknown"
  else do
    let formatted ← optList (authors.map formatOneAPA)
    match formatted with
    | [x] => pure x
    | [x, y] => pure (x ++ ", & " ++ y)
    | l => pure (joinSep ", " l.dropLast ++ ", & " ++ (l.getLast?.getD ""))

/-- `formatAuthorAPA` from `src/index.ts`: the same per-name mapping, but the
formatted names are joined with `.join(", & ")`, i.e. every separator is
`", & "`. -/
def formatAuthorAPAIdx (authors : List String) : Option String :=
  if authors.length = 0 then some "Unknown"
  else do
    let formatted ← optList (authors.map formatOneAPA)
    pure (joinSep ", & " formatted)

/-- `formatAuthorMLA` from `src/lib/authors.ts` (identical to the copy in
`src/index.ts`).  Note the multi-author branch inverts `authors[0]` without
the single-token guard of the single-author branch. -/
def formatAuthorMLA (authors : List String) : String :=
  match authors with
  | [] => "Unknown"
  | [a] =>
    match splitTokens a with
    | [] => a
    | [_] => a
    | parts => (parts.getLast?.getD "") ++ ", " ++ joinSep " " parts.dropLast
  | a :: rest =>
    let parts := splitTokens a
    let firstAuthor := (parts.getLast?.getD "") ++ ", " ++ joinSep " " parts.dropLast
    match rest with
    | [b] => firstAuthor ++ ", and " ++ b
    | _ => firstAuthor ++ ", et al."

/-- The month-name table of `getMonthName`. -/
def monthsList : List String :=
  ["January", "February", "March", "April", "May", "June",
   "July", "August", "September", "October", "November", "December"]

/-- `getMonthName` from `src/lib/authors.ts`: `months[month - 1] || ""`,
where an out-of-range index reads `undefined` and falls back to `""`. -/
def getMonthName (month : Int) : String :=
  let i := month - 1
  (if i < 0 then none else monthsList.get? i.toNat).getD ""

/-- The duplicate test inside `searchAll` (`src/fetchers.ts`):
`r.title.toLowerCase() === ol.title.toLowerCase() &&
 r.authors[0]?.toLowerCase() === ol.authors[0]?.toLowerCase()`.
Two absent first authors compare as `undefined === undefined`, i.e. equal. -/
def isDupe (r o : SearchResult) : Bool :=
  decide (strLower r.title = strLower o.title) &&
    decide (r.authors.head?.map strLower = o.authors.head?.map strLower)

/-- One step of the OpenLibrary deduplication loop in `searchAll`. -/
def dedupAdd (acc : List SearchResult) (o : SearchResult) : List SearchResult :=
  if acc.any (fun r => isDupe r o) then acc else acc ++ [o]

/-- The candidate list before ranking: Google Books results first, then each
OpenLibrary result not flagged as a duplicate of an earlier entry. -/
def candidates (googleResults openLibResults : List SearchResult) : List SearchResult :=
  openLibResults.foldl dedupAdd googleResults

/-- The completeness score of `searchAll`:
`(a.year ? 1 : 0) + (a.publisher ? 1 : 0) + (a.authors.length > 0 ? 1 : 0)`. -/
def score (r : SearchResult) : Nat :=
  (if jsTruthyOpt r.year then 1 else 0) + (if jsTruthyOpt r.publisher then 1 else 0) +
    (if r.authors.length > 0 then 1 else 0)

/-- Insert into a list sorted by strictly descending `f`, after every element
of score at least `f x` — the placement a stable sort gives an element that
originally preceded the others. -/
def insertScored (f : α → Nat) (x : α) : List α → List α
  | [] => [x]
  | y :: ys => if f y ≤ f x then x :: y :: ys else y :: insertScored f x ys

/-- Stable descending insertion sort; models
`results.sort((a, b) => scoreB - scoreA)`, which by the ECMAScript
specification is a stable sort ordering by descending score. -/
def sortScored (f : α → Nat) : List α → List α
  | [] => []
  | x :: xs => insertScored f x (sortScored f xs)

/-- The pure core of `searchAll` (`src/fetchers.ts`), as a function of the
two provider result lists: concatenate with deduplication, sort by
descending completeness score (stable), and keep the top 10. -/
def searchAllPure (googleResults openLibResults : List SearchResult) : List SearchResult :=
  (sortScored score (candidates googleResults openLibResults)).take 10

/-- `getUrlFromResult` from `src/fetchers.ts`. -/
def getUrlFromResult (result : SearchResult) : String :=
  match result.source with
  | ProviderTag.google_books =>
    jsOrS (result.raw.volumeInfo.bind (·.infoLink))
      ("https://books.google.com/books?id=" ++ result.raw.id)
  | ProviderTag.openlibrary => "https://openlibrary.org" ++ result.raw.key
  | ProviderTag.crossref => ""

/-- `metadataFromSearchResult` from `src/fetchers.ts`. -/
def metadataFromSearchResult (result : SearchResult) : SourceMetadata :=
  { id := some result.id
    authors := result.authors
    title := result.title
    siteName := jsOrS result.publisher "Unknown Publisher"
    publisher := result.publisher
    year := result.year
    month := none
    day := none
    url := getUrlFromResult result
    accessDate := ""
    type := result.type }

/-- One CrossRef author entry rendered by `fetchDOIMetadata`:
`a.family + (a.given ? ", " + a.given : "")`. -/
def crossrefAuthorName (family : String) (given : Option String) : String :=
  match given with
  | none => family
  | some g => if g = "" then family else family ++ ", " ++ g

/-- The record `fetchDOIMetadata` (`src/fetchers.ts`) builds from a parsed
CrossRef response: author (family, given) pairs, optional title / container
title / publisher, the positional date parts, and the extracted DOI. -/
def mkDOIRec (authorPairs : List (String × Option String))
    (title containerTitle publisher : Option String)
    (dateParts : List Int) (doi : String) : SourceMetadata :=
  { id := none
    authors := authorPairs.map (fun p => crossrefAuthorName p.1 p.2)
    title := jsOrS title "Untitled"
    siteName := jsOrS containerTitle (jsOrS publisher "Unknown Publisher")
    publisher := publisher
    year := (dateParts.get? 0).map intToStr
    month :=
      match dateParts.get? 1 with
      | none => none
      | some mv => if mv = 0 then none else some (getMonthName mv)
    day := (dateParts.get? 2).map intToStr
    url := "https://doi.org/" ++ doi
    accessDate := ""
    type := SourceType.article }

/-- `publishedDate.match(/^\d{4}/)`: the first four characters when they are
all decimal digits; the surrounding truthiness test makes an absent or empty
`publishedDate` yield no year. -/
def extractYear4 (publishedDate : Option String) : Option String :=
  match publishedDate with
  | none => none
  | some s =>
    if s = "" then none
    else
      match s.data with
      | a :: b :: c :: d :: _ =>
        if a.isDigit && b.isDigit && c.isDigit && d.isDigit then some ⟨[a, b, c, d]⟩
        else none
      | _ => none

/-- `publishDate.match(/\d{4}/)`: the earliest run of four decimal digits. -/
def findYear4L : List Char → Option String
  | a :: b :: c :: d :: rest =>
    if a.isDigit && b.isDigit && c.isDigit && d.isDigit then some ⟨[a, b, c, d]⟩
    else findYear4L (b :: c :: d :: rest)
  | _ => none

/-- The record `fetchGoogleBooksByISBN` (`src/fetchers.ts`) builds from a
parsed Google Books volume. -/
def mkGoogleISBNRec (authors : List String) (title publisher publishedDate infoLink : Option String)
    (isbn : String) : SourceMetadata :=
  { id := none
    authors := authors
    title := jsOrS title "Untitled"
    siteName := jsOrS publisher "Unknown Publisher"
    publisher := publisher
    year := extractYear4 publishedDate
    month := none
    day := none
    url := jsOrS infoLink ("https://books.google.com/books?q=isbn:" ++ isbn)
    accessDate := ""
    type := SourceType.book }

/-- The record `fetchOpenLibraryByISBN` (`src/fetchers.ts`) builds from a
parsed OpenLibrary book payload. -/
def mkOpenLibISBNRec (authors : List String) (title publisher publishDate bookUrl : Option String)
    (isbn : String) : SourceMetadata :=
  { id := none
    authors := authors
    title := jsOrS title "Untitled"
    siteName := jsOrS publisher "Unknown Publisher"
    publisher := publisher
    year := findYear4L (jsOrS publishDate "").data
    month := none
    day := none
    url := jsOrS bookUrl ("https://openlibrary.org/isbn/" ++ isbn)
    accessDate := ""
    type := SourceType.book }

/-- `parseInt(year || "9999")` as used by the ISBN merge. -/
def yearKey (year : Option String) : Option Nat :=
  jsParseIntNat (jsOrS year "9999")

/-- The merge step of `fetchISBNMetadata` (`src/fetchers.ts`) over the two
optional per-source records; a `NaN` comparison is false, so it falls back to
the Google year. -/
def mergeISBN (googleResult openLibResult : Option SourceMetadata) : Option SourceMetadata :=
  match googleResult, openLibResult with
  | some g, some o =>
    let takeOpenLib : Bool :=
      match yearKey o.year, yearKey g.year with
      | some oy, some gy => decide (oy < gy)
      | _, _ => false
    some { g with
            year := if takeOpenLib then o.year else g.year
            publisher := jsOrOpt g.publisher o.publisher }
  | some g, none => some g
  | none, o => o

/-- The record `fetchYouTubeMetadata` (`src/fetchers.ts`) builds from a
parsed oEmbed response. -/
def mkYouTubeRec (authorName title : Option String) (source : String) : SourceMetadata :=
  { id := none
    authors := [jsOrS authorName "Unknown"]
    title := jsOrS title "Untitled"
    siteName := "YouTube"
    publisher := none
    year := none
    month := none
    day := none
    url := source
    accessDate := ""
    type := SourceType.video }

/-- The record `fetchWikipediaMetadata` (`src/fetchers.ts`) builds once the
article title has been extracted from the URL slug. -/
def mkWikipediaRec (articleTitle : String) (source : String) : SourceMetadata :=
  { id := none
    authors := []
    title := articleTitle
    siteName := "Wikipedia"
    publisher := some "Wikimedia Foundation"
    year := none
    month := none
    day := none
    url := source
    accessDate := ""
    type := SourceType.encyclopedia }

/-- The record `fetchURLMetadata` (`src/fetchers.ts`) builds from the scraped
meta tags of the fetched page. -/
def mkURLRec (authorStr title : Option String) (siteName : String)
    (year month day : Option String) (source : String) : SourceMetadata :=
  { id := none
    authors := match authorStr with | none => [] | some a => if a = "" then [] else [a]
    title := jsOrS title "Untitled"
    siteName := siteName
    publisher := none
    year := year
    month := month
    day := day
    url := source
    accessDate := ""
    type := SourceType.website }

/-- `italic` from `src/index.ts`. -/
def italic (text : String) : String := "<i>" ++ text ++ "</i>"

/-- `formatAPA7` from `src/index.ts` (lines 532-556); `none` models the
`TypeError` the author formatter can throw. -/
def formatAPA7 (m : SourceMetadata) : Option String :=
  let date := match m.year with
    | none => "(n.d.)"
    | some y => if y = "" then "(n.d.)" else "(" ++ y ++ ")"
  match m.type with
  | SourceType.encyclopedia =>
    some (m.title ++ ". " ++ date ++ ". In " ++ italic m.siteName ++
      ". Retrieved " ++ m.accessDate ++ ", from " ++ m.url)
  | SourceType.book =>
    (if m.authors.length > 0 then formatAuthorAPAIdx m.authors else some "Unknown").map
      (fun author => author ++ " " ++ date ++ ". " ++ italic m.title ++ ". " ++
        jsOrS m.publisher m.siteName ++ ".")
  | SourceType.video =>
    let author := if m.authors.length > 0 then joinSep ", " m.authors else "Unknown"
    some (author ++ " " ++ date ++ ". " ++ italic m.title ++ " [Video]. " ++
      m.siteName ++ ". " ++ m.url)
  | SourceType.article =>
    (if m.authors.length > 0 then formatAuthorAPAIdx m.authors else some "Unknown").map
      (fun author => author ++ " " ++ date ++ ". " ++ m.title ++ ". " ++
        italic m.siteName ++ ". " ++ m.url)
  | SourceType.website =>
    (if m.authors.length > 0 then formatAuthorAPAIdx m.authors else some m.siteName).map
      (fun author => author ++ " " ++ date ++ ". " ++ italic m.title ++ ". " ++
        m.siteName ++ ". " ++ m.url)

/-- `formatMLA9` from `src/index.ts` (lines 558-580). -/
def formatMLA9 (m : SourceMetadata) (todayShort : String) : String :=
  match m.type with
  | SourceType.encyclopedia =>
    "\"" ++ m.title ++ ".\" " ++ italic m.siteName ++ ", " ++ jsOrS m.year "n.d." ++
      ", " ++ m.url ++ ". Accessed " ++ todayShort ++ "."
  | SourceType.book =>
    let author := if m.authors.length > 0 then formatAuthorMLA m.authors ++ ". " else ""
    author ++ italic m.title ++ ". " ++ jsOrS m.publisher m.siteName ++ ", " ++
      jsOrS m.year "n.d." ++ "."
  | _ =>
    let author := if m.authors.length > 0 then formatAuthorMLA m.authors ++ ". " else ""
    author ++ "\"" ++ m.title ++ ".\" " ++ italic m.siteName ++ ", " ++
      jsOrS m.year "n.d." ++ ", " ++ m.url ++ ". Accessed " ++ todayShort ++ "."

/-- `formatChicago` from `src/index.ts` (lines 582-599).  The encyclopedia
branch renders no date component at all; video falls into the website
branch. -/
def formatChicago (m : SourceMetadata) : String :=
  match m.type with
  | SourceType.encyclopedia =>
    italic m.siteName ++ ". \"" ++ m.title ++ ".\" Accessed " ++ m.accessDate ++
      ". " ++ m.url ++ "."
  | SourceType.book =>
    let author := if m.authors.length > 0 then formatAuthorMLA m.authors ++ ". " else ""
    author ++ italic m.title ++ ". " ++ jsOrS m.publisher m.siteName ++ ", " ++
      jsOrS m.year "n.d." ++ "."
  | SourceType.article =>
    let author := if m.authors.length > 0 then formatAuthorMLA m.authors ++ ". " else ""
    author ++ "\"" ++ m.title ++ ".\" " ++ italic m.siteName ++ ", " ++
      jsOrS m.year "n.d." ++ ". " ++ m.url ++ "."
  | _ =>
    let author := if m.authors.length > 0 then formatAuthorMLA m.authors ++ ". " else ""
    author ++ "\"" ++ m.title ++ ".\" " ++ italic m.siteName ++ ", " ++
      jsOrS m.year "n.d." ++ ". " ++ m.url ++ "."

/-- `formatHarvard` from `src/index.ts` (lines 601-625). -/
def formatHarvard (m : SourceMetadata) : Option String :=
  let year := jsOrS m.year "n.d."
  match m.type with
  | SourceType.encyclopedia =>
    some (italic m.siteName ++ " (" ++ year ++ ") " ++ m.title ++ ". Available at: " ++
      m.url ++ " (Accessed: " ++ m.accessDate ++ ").")
  | SourceType.book =>
    (if m.authors.length > 0 then formatAuthorAPAIdx m.authors else some "Unknown").map
      (fun author => author ++ " (" ++ year ++ ") " ++ italic m.title ++ ". " ++
        jsOrS m.publisher m.siteName ++ ".")
  | SourceType.video =>
    (if m.authors.length > 0 then formatAuthorAPAIdx m.authors else some "Unknown").map
      (fun author => author ++ " (" ++ year ++ ") " ++ italic m.title ++
        " [Video]. Available at: " ++ m.url ++ " (Accessed: " ++ m.accessDate ++ ").")
  | SourceType.article =>
    (if m.authors.length > 0 then formatAuthorAPAIdx m.authors else some "Unknown").map
      (fun author => author ++ " (" ++ year ++ ") " ++ m.title ++ ". " ++
        italic m.siteName ++ ". Available at: " ++ m.url ++ " (Accessed: " ++
        m.accessDate ++ ").")
  | SourceType.website =>
    (if m.authors.length > 0 then formatAuthorAPAIdx m.authors else some m.siteName).map
      (fun author => author ++ " (" ++ year ++ ") " ++ italic m.title ++ ", " ++
        m.siteName ++ ". Available at: " ++ m.url ++ " (Accessed: " ++
        m.accessDate ++ ").")

/-- `formatAllCitations` from `src/index.ts` (lines 523-530); `none` models a
`TypeError` escaping from the APA or Harvard author formatter. -/
def formatAllCitations (m : SourceMetadata) (todayShort : String) : Option Citations :=
  match formatAPA7 m, formatHarvard m with
  | some apa, some harvard =>
    some { apa7 := apa, mla9 := formatMLA9 m todayShort,
           chicago := formatChicago m, harvard := harvard }
  | _, _ => none

/-- A name is well formed when splitting it on spaces yields no empty token;
exactly the condition under which `p[0].toUpperCase()` cannot throw. -/
def wfName (name : String) : Prop := ∀ p ∈ splitTokens name, p ≠ ""

/-- All names in an author list are well formed. -/
def wfAuthors (authors : List String) : Prop := ∀ name ∈ authors, wfName name

instance wfNameDecidable (name : String) : Decidable (wfName name) := by
  unfold wfName
  infer_instance

instance wfAuthorsDecidable (authors : List String) : Decidable (wfAuthors authors) := by
  unfold wfAuthors
  infer_instance

/-- Specification-side rendering of one APA author name, written from the
words of §4.7 of the spec: split on whitespace, a single token unchanged,
otherwise the final token is the family name and every earlier token becomes
its first letter plus a period, the initials joined with spaces. -/
def apaSpecOne (name : String) : String :=
  match splitTokens name with
  | [] => name
  | [_] => name
  | parts =>
    (parts.getLast?.getD "") ++ ", " ++
      joinSep " " (parts.dropLast.map (fun p => String.mk [asciiUpper (p.data.headD ' '), '.']))

/-- Specification-side join of formatted APA names: commas between the
earlier authors and the literal `", & "` only before the last one;
`"Unknown"` for the empty list. -/
def apaSpecJoin : List String → String
  | [] => "Unknown"
  | [x] => x
  | l => joinSep ", " l.dropLast ++ ", & " ++ (l.getLast?.getD "")

/-- Specification-side MLA inversion of a name (§4.7): the same family/given
split rule as APA, a single token left unchanged. -/
def mlaSpecInvert (name : String) : String :=
  match splitTokens name with
  | [] => name
  | [_] => name
  | parts => (parts.getLast?.getD "") ++ ", " ++ joinSep " " parts.dropLast

/-- Specification-side month table: the full English month name for 1-12 and
the empty string for every other integer. -/
def monthSpec (m : Int) : String :=
  if m = 1 then "January" else if m = 2 then "February" else if m = 3 then "March"
  else if m = 4 then "April" else if m = 5 then "May" else if m = 6 then "June"
  else if m = 7 then "July" else if m = 8 then "August" else if m = 9 then "September"
  else if m = 10 then "October" else if m = 11 then "November"
  else if m = 12 then "December" else ""

/-- The record fixed by the spec's end-to-end scenario, as the DOI adapter
builds it: CrossRef family `"Smith"` and given `"John"` combine to the
author string `"Smith, John"`. -/
def doiScenarioRec : SourceMetadata :=
  mkDOIRec [("Smith", some "John")] (some "A Study") (some "Journal X")
    (some "Publisher Y") [2020] "10.1000/182"

/-- An empty provider payload for concrete search candidates. -/
def emptyRaw : RawPayload := { volumeInfo := none, id := "", key := "" }

/-- Concrete Google Books candidate for the C5 witness. -/
def dupResG : SearchResult :=
  { id := "g1", title := "Dune", authors := ["Frank Herbert"], year := none,
    publisher := none, type := SourceType.book, source := ProviderTag.google_books,
    raw := emptyRaw }

/-- Concrete OpenLibrary candidate duplicating `dupResG` up to case. -/
def dupResO : SearchResult :=
  { id := "o1", title := "DUNE", authors := ["frank herbert"], year := none,
    publisher := none, type := SourceType.book, source := ProviderTag.openlibrary,
    raw := emptyRaw }

/-- Concrete zero-author Google Books candidate. -/
def zeroResG : SearchResult :=
  { id := "g2", title := "Dune", authors := [], year := none, publisher := none,
    type := SourceType.book, source := ProviderTag.google_books, raw := emptyRaw }

/-- Concrete zero-author OpenLibrary candidate with the same title up to case. -/
def zeroResO : SearchResult :=
  { id := "o2", title := "dune", authors := [], year := none, publisher := none,
    type := SourceType.book, source := ProviderTag.openlibrary, raw := emptyRaw }

/-- Concrete candidate of completeness score 2 (year and publisher). -/
def rankR1 : SearchResult :=
  { id := "r1", title := "T1", authors := [], year := some "2001",
    publisher := some "P1", type := SourceType.book,
    source := ProviderTag.google_books, raw := emptyRaw }

/-- Concrete candidate of completeness score 1 (year only). -/
def rankR2 : SearchResult :=
  { id := "r2", title := "T2", authors := [], year := some "2002",
    publisher := none, type := SourceType.book,
    source := ProviderTag.google_books, raw := emptyRaw }

/-- Concrete candidate of completeness score 2 (year and publisher). -/
def rankR3 : SearchResult :=
  { id := "r3", title := "T3", authors := [], year := some "2003",
    publisher := some "P3", type := SourceType.book,
    source := ProviderTag.google_books, raw := emptyRaw }

/-- Concrete candidate of completeness score 0. -/
def rankR4 : SearchResult :=
  { id := "r4", title := "T4", authors := [], year := none, publisher := none,
    type := SourceType.book, source := ProviderTag.google_books, raw := emptyRaw }

/-- Concrete Google Books ISBN record for the C7 witness. -/
def isbnDemoG : SourceMetadata :=
  mkGoogleISBNRec ["A. Author"] (some "Some Book") (some "Pub G") (some "2005-03")
    (some "") "9780134685991"

/-- Concrete OpenLibrary ISBN record for the C7 witness, with the earlier
year and an empty publisher. -/
def isbnDemoO : SourceMetadata :=
  mkOpenLibISBNRec ["A. Author"] (some "Some Book") (some "") (some "Printed 1999.")
    none "9780134685991"

/-- The concrete dateless encyclopedia record refuting C8 for Chicago. -/
def chicagoWikiRec : SourceMetadata :=
  mkWikipediaRec "Alan Turing" "https://en.wikipedia.org/wiki/Alan_Turing"

/-- A search candidate carrying the unused `crossref` provenance tag. -/
def crossrefRes : SearchResult :=
  { id := "c1", title := "Some Paper", authors := ["A. Author"], year := some "2020",
    publisher := none, type := SourceType.article, source := ProviderTag.crossref,
    raw := emptyRaw }

/-- Concrete dateless book record for the C8 witness. -/
def ndDemoRec : SourceMetadata :=
  { id := none, authors := ["Frank Herbert"], title := "Dune",
    siteName := "Chilton Books", publisher := some "Chilton Books",
    year := none, month := none, day := none,
    url := "https://openlibrary.org/isbn/9780441013593",
    accessDate := "October 12, 2025", type := SourceType.book }

/-! ## General lemmas about the string fragment -/

/-- `startsWithL` characterised by list decomposition. -/
theorem startsWithL_iff (sub : List Char) : ∀ l : List Char,
    startsWithL l sub = true ↔ ∃ t, l = sub ++ t := by
  induction sub with
  | nil =>
    intro l
    constructor
    · intro _; exact ⟨l, rfl⟩
    · intro _; cases l <;> rfl
  | cons d ds ih =>
    intro l
    cases l with
    | nil =>
      simp [startsWithL]
    | cons c cs =>
      simp only [startsWithL, Bool.and_eq_true, beq_iff_eq, ih, List.cons_append,
        List.cons.injEq]
      constructor
      · rintro ⟨h1, t, h2⟩; exact ⟨t, h1, h2⟩
      · rintro ⟨t, h1, h2⟩; exact ⟨h1, t, h2⟩

/-- `containsL` characterised by list decomposition. -/
theorem containsL_iff : ∀ (l sub : List Char),
    containsL l sub = true ↔ ∃ a b, l = a ++ sub ++ b := by
  intro l
  induction l with
  | nil =>
    intro sub
    simp only [containsL, startsWithL_iff]
    constructor
    · rintro ⟨t, ht⟩; exact ⟨[], t, by simpa using ht⟩
    · rintro ⟨a, b, hab⟩
      have h0 : a = [] ∧ sub = [] ∧ b = [] := by simpa using hab.symm
      exact ⟨b, by simp [h0.2.1, h0.2.2]⟩
  | cons c cs ih =>
    intro sub
    simp only [containsL, Bool.or_eq_true, startsWithL_iff, ih]
    constructor
    · rintro (⟨t, ht⟩ | ⟨a, b, hab⟩)
      · exact ⟨[], t, by simpa using ht⟩
      · exact ⟨c :: a, b, by simp [hab]⟩
    · rintro ⟨a, b, hab⟩
      cases a with
      | nil => exact Or.inl ⟨b, by simpa using hab⟩
      | cons x xs =>
        simp only [List.cons_append, List.cons.injEq] at hab
        exact Or.inr ⟨xs, b, hab.2⟩

/-- Containment is preserved by mapping a function over both lists. -/
theorem containsL_map (f : Char → Char) {l sub : List Char}
    (h : containsL l sub = true) : containsL (l.map f) (sub.map f) = true := by
  obtain ⟨a, b, rfl⟩ := (containsL_iff _ _).mp h
  exact (containsL_iff _ _).mpr ⟨a.map f, b.map f, by simp⟩

/-- Every character of a contained run is a character of the list. -/
theorem mem_of_containsL {l sub : List Char} {c : Char}
    (h : containsL l sub = true) (hc : c ∈ sub) : c ∈ l := by
  obtain ⟨a, b, rfl⟩ := (containsL_iff _ _).mp h
  simp [hc]

/-- `dropWhile` stops no later than the first character failing the
predicate, so everything from such a character on survives. -/
theorem dropWhile_app_keep (p : Char → Bool) (a : List Char) (c : Char)
    (ts : List Char) (hc : p c = false) :
    ∃ a₁, (a ++ c :: ts).dropWhile p = a₁ ++ c :: ts := by
  induction a with
  | nil => exact ⟨[], by simp [List.dropWhile_cons, hc]⟩
  | cons x xs ih =>
    by_cases hx : p x
    · obtain ⟨a₁, ha₁⟩ := ih
      exact ⟨a₁, by simp [List.dropWhile_cons, hx, ha₁]⟩
    · exact ⟨x :: xs, by simp [List.dropWhile_cons, hx]⟩

/-- A whitespace-free nonempty run contained in a list survives trimming. -/
theorem containsL_trimL {l sub : List Char} (hne : sub ≠ [])
    (hws : ∀ x ∈ sub, wsJS x = false) (h : containsL l sub = true) :
    containsL (trimL l) sub = true := by
  obtain ⟨a, b, rfl⟩ := (containsL_iff _ _).mp h
  obtain ⟨c, cs, rfl⟩ : ∃ c cs, sub = c :: cs := by
    cases sub with
    | nil => exact absurd rfl hne
    | cons c cs => exact ⟨c, cs, rfl⟩
  unfold trimL
  obtain ⟨a₁, h₁⟩ := dropWhile_app_keep wsJS a c (cs ++ b) (hws c (by simp))
  have e1 : a ++ (c :: cs) ++ b = a ++ c :: (cs ++ b) := by simp
  rw [e1, h₁]
  obtain ⟨d, ds, hr⟩ : ∃ d ds, cs.reverse ++ [c] = d :: ds := by
    cases hrev : cs.reverse ++ [c] with
    | nil => exact absurd hrev (by simp)
    | cons d ds => exact ⟨d, ds, rfl⟩
  have hd : d ∈ c :: cs := by
    have hmem : d ∈ cs.reverse ++ [c] := by simp [hr]
    rcases List.mem_append.mp hmem with hm | hm
    · exact List.mem_cons_of_mem c (List.mem_reverse.mp hm)
    · simp at hm; simp [hm]
  obtain ⟨b₁, h₂⟩ := dropWhile_app_keep wsJS b.reverse d (ds ++ a₁.reverse) (hws d hd)
  have e3 : (a₁ ++ c :: (cs ++ b)).reverse = b.reverse ++ d :: (ds ++ a₁.reverse) := by
    have : (a₁ ++ c :: (cs ++ b)).reverse = b.reverse ++ ((cs.reverse ++ [c]) ++ a₁.reverse) := by
      simp
    rw [this, hr]; simp
  rw [e3, h₂]
  refine (containsL_iff _ _).mpr ⟨a₁, b₁.reverse, ?_⟩
  have e4 : (b₁ ++ d :: (ds ++ a₁.reverse)).reverse
      = a₁ ++ ((d :: ds).reverse ++ b₁.reverse) := by simp
  rw [e4, ← hr]
  simp

/-- Characters survive trimming backwards: anything in the trimmed list was
in the original. -/
theorem mem_trimL {c : Char} {l : List Char} (h : c ∈ trimL l) : c ∈ l := by
  unfold trimL at h
  have h1 := List.mem_reverse.mp h
  have h2 := (List.dropWhile_sublist wsJS).subset h1
  have h3 := List.mem_reverse.mp h2
  exact (List.dropWhile_sublist wsJS).subset h3

/-- ASCII lower-casing only produces a period from a period. -/
theorem asciiLower_eq_dot {c : Char} (h : asciiLower c = '.') : c = '.' := by
  unfold asciiLower at h
  split at h <;> first | exact h | exact absurd h (by decide)

/-- ASCII lower-casing only produces a lowercase d from d or D. -/
theorem asciiLower_eq_d {c : Char} (h : asciiLower c = 'd') : c = 'd' ∨ c = 'D' := by
  unfold asciiLower at h
  split at h <;> first | exact absurd h (by decide) | (left; exact h) | (right; decide)

/-! ## C1: the classifier -/

/-- C1: `detectInputType` is a total function into the six tags, the checks
run in priority order with the first match winning: any string containing
`"doi.org/"` classifies as `doi` (in particular a DOI URL is `doi`, not
`url`), any string whose hyphen- and whitespace-stripped form is exactly 10
or 13 decimal digits classifies as `isbn`, and `"12345"` classifies as
`text`. -/
theorem detectInputType_priority :
    (∀ s : String, containsS s "doi.org/" = true → detectInputType s = InputType.doi) ∧
    (∀ s : String, isbnShape (stripISBN s) = true → detectInputType s = InputType.isbn) ∧
    detectInputType "https://doi.org/10.1000/x" = InputType.doi ∧
    detectInputType "978-0-13-468599-1" = InputType.isbn ∧
    detectInputType "12345" = InputType.text ∧
    (∀ s : String, detectInputType s = InputType.doi ∨ detectInputType s = InputType.isbn ∨
      detectInputType s = InputType.youtube ∨ detectInputType s = InputType.wikipedia ∨
      detectInputType s = InputType.url ∨ detectInputType s = InputType.text) := by
  refine ⟨?_, ?_, by decide, by decide, by decide, ?_⟩
  · intro s h
    have h1 : containsL (trimL s.data) ("doi.org/".data) = true :=
      containsL_trimL (by decide) (by decide) h
    have h2 := containsL_map asciiLower h1
    have h3 : (("doi.org/".data).map asciiLower) = "doi.org/".data := by decide
    rw [h3] at h2
    have hc : containsS (strLower (strTrim s)) "doi.org/" = true := h2
    simp [detectInputType, hc]
  · intro s h
    have hall : ∀ c ∈ (stripISBN s).data, c.isDigit = true := by
      have h' : ((stripISBN s).data.all (·.isDigit)) = true := by
        have hh := h
        unfold isbnShape at hh
        exact (Bool.and_eq_true _ _ |>.mp hh).1
      exact fun c hc => List.all_eq_true.mp h' c hc
    have h10 : startsWithS (strLower (strTrim s)) "10." = false := by
      by_contra hb
      simp only [Bool.not_eq_false] at hb
      obtain ⟨t, ht⟩ := (startsWithL_iff _ _).mp hb
      have hdot : '.' ∈ (trimL s.data).map asciiLower := by
        have ht' : (trimL s.data).map asciiLower = "10.".data ++ t := ht
        rw [ht']
        exact List.mem_append.mpr (Or.inl (by decide))
      obtain ⟨c, hcmem, hceq⟩ := List.mem_map.mp hdot
      have hc' : c = '.' := asciiLower_eq_dot hceq
      subst hc'
      have hcs : '.' ∈ s.data := mem_trimL hcmem
      have hstrip : '.' ∈ (stripISBN s).data :=
        List.mem_filter.mpr ⟨hcs, by decide⟩
      exact absurd (hall _ hstrip) (by decide)
    have hdoi : containsS (strLower (strTrim s)) "doi.org/" = false := by
      by_contra hb
      simp only [Bool.not_eq_false] at hb
      have hb' : containsL ((trimL s.data).map asciiLower) ("doi.org/".data) = true := hb
      have hd : 'd' ∈ (trimL s.data).map asciiLower :=
        mem_of_containsL hb' (by decide)
      obtain ⟨c, hcmem, hceq⟩ := List.mem_map.mp hd
      have hcs : c ∈ s.data := mem_trimL hcmem
      have hstrip : c ∈ (stripISBN s).data := by
        rcases asciiLower_eq_d hceq with h' | h' <;> subst h' <;>
          exact List.mem_filter.mpr ⟨hcs, by decide⟩
      have := hall _ hstrip
      rcases asciiLower_eq_d hceq with h' | h' <;> rw [h'] at this <;>
        exact absurd this (by decide)
    simp [detectInputType, h10, hdoi, h]
  · intro s
    simp only [detectInputType]
    split
    · exact Or.inl rfl
    split
    · exact Or.inr (Or.inl rfl)
    split
    · exact Or.inr (Or.inr (Or.inl rfl))
    split
    · exact Or.inr (Or.inr (Or.inr (Or.inl rfl)))
    split
    · exact Or.inr (Or.inr (Or.inr (Or.inr (Or.inl rfl))))
    · exact Or.inr (Or.inr (Or.inr (Or.inr (Or.inr rfl))))

/-- Witness for C1 at concrete inputs: a string containing `"doi.org/"` in
the middle is `doi`, a hyphenated 13-digit ISBN is `isbn`. -/
theorem detectInputType_priority_witness :
    containsS "see https://doi.org/10.1000/xyz now" "doi.org/" = true ∧
    detectInputType "see https://doi.org/10.1000/xyz now" = InputType.doi ∧
    isbnShape (stripISBN "978-0-13-468599-1") = true ∧
    detectInputType "978-0-13-468599-1" = InputType.isbn :=
  ⟨by decide, detectInputType_priority.1 _ (by decide), by decide,
    detectInputType_priority.2.1 _ (by decide)⟩

/-! ## C10: getMonthName -/

/-- C10: `getMonthName` is total over the integers — it returns the full
English month name for 1 through 12 and the empty string for every other
integer, never an undefined value. -/
theorem getMonthName_total : ∀ m : Int, getMonthName m = monthSpec m := by
  intro m
  by_cases hlow : m ≤ 0
  · have hneg : m - 1 < 0 := by omega
    have h1 : getMonthName m = "" := by
      unfold getMonthName
      simp [hneg]
    have h2 : monthSpec m = "" := by
      unfold monthSpec
      have : m ≠ 1 ∧ m ≠ 2 ∧ m ≠ 3 ∧ m ≠ 4 ∧ m ≠ 5 ∧ m ≠ 6 ∧ m ≠ 7 ∧ m ≠ 8 ∧
          m ≠ 9 ∧ m ≠ 10 ∧ m ≠ 11 ∧ m ≠ 12 := by omega
      obtain ⟨h1, h2, h3, h4, h5, h6, h7, h8, h9, h10, h11, h12⟩ := this
      simp [h1, h2, h3, h4, h5, h6, h7, h8, h9, h10, h11, h12]
    rw [h1, h2]
  · by_cases hhigh : 13 ≤ m
    · have hge : (12 : Nat) ≤ (m - 1).toNat := by omega
      have h1 : getMonthName m = "" := by
        unfold getMonthName
        have hnn : ¬ (m - 1 < 0) := by omega
        simp only [hnn, if_false]
        have hlen : monthsList.length ≤ (m - 1).toNat := by
          simp only [monthsList, List.length_cons, List.length_nil]
          omega
        have hnone : monthsList.get? (m - 1).toNat = none := List.get?_eq_none.mpr hlen
        rw [hnone]
        rfl
      have h2 : monthSpec m = "" := by
        unfold monthSpec
        have : m ≠ 1 ∧ m ≠ 2 ∧ m ≠ 3 ∧ m ≠ 4 ∧ m ≠ 5 ∧ m ≠ 6 ∧ m ≠ 7 ∧ m ≠ 8 ∧
            m ≠ 9 ∧ m ≠ 10 ∧ m ≠ 11 ∧ m ≠ 12 := by omega
        obtain ⟨h1, h2, h3, h4, h5, h6, h7, h8, h9, h10, h11, h12⟩ := this
        simp [h1, h2, h3, h4, h5, h6, h7, h8, h9, h10, h11, h12]
      rw [h1, h2]
    · have hb : 1 ≤ m ∧ m ≤ 12 := by omega
      interval_cases m <;> decide

/-! ## String-append helpers and author-formatter lemmas -/

/-- Strings with equal character data are equal. -/
theorem strExt {s t : String} (h : s.data = t.data) : s = t := by
  cases s; cases t; exact congrArg String.mk h

/-- String append is associative. -/
theorem strAppend_assoc (a b c : String) : a ++ b ++ c = a ++ (b ++ c) := by
  apply strExt
  simp [String.data_append, List.append_assoc]

/-- The empty string is a right identity for append. -/
theorem strAppend_empty (a : String) : a ++ "" = a := by
  apply strExt
  simp [String.data_append]

/-- Mapping a pointwise-`some` function through `optList` succeeds. -/
theorem optList_map_eq {α β : Type} {f : α → Option β} {g : α → β} :
    ∀ l : List α, (∀ x ∈ l, f x = some (g x)) → optList (l.map f) = some (l.map g) := by
  intro l h
  induction l with
  | nil => rfl
  | cons x xs ih =>
    have hx := h x (by simp)
    have hxs := ih (fun y hy => h y (by simp [hy]))
    simp [optList, hx, hxs]

/-- On a well-formed name the per-name APA mapping cannot throw and agrees
with the specification-side rendering. -/
theorem formatOneAPA_wf (name : String) (h : wfName name) :
    formatOneAPA name = some (apaSpecOne name) := by
  rcases hs : splitTokens name with _ | ⟨p1, _ | ⟨p2, ps2⟩⟩
  · simp [formatOneAPA, apaSpecOne, hs]
  · simp [formatOneAPA, apaSpecOne, hs]
  · have hopt : optList ((p1 :: p2 :: ps2).dropLast.map initialOf)
        = some ((p1 :: p2 :: ps2).dropLast.map
            (fun p => String.mk [asciiUpper (p.data.headD ' '), '.'])) := by
      apply optList_map_eq
      intro p hp
      have hpmem : p ∈ splitTokens name := by
        rw [hs]
        exact (List.dropLast_sublist (l := p1 :: p2 :: ps2)).subset hp
      have hne : p ≠ "" := h p hpmem
      cases hd : p.data with
      | nil => exact absurd (strExt hd) hne
      | cons c cs => simp [initialOf, hd]
    simp only [formatOneAPA, apaSpecOne, hs, hopt, Option.bind_eq_bind, Option.some_bind]
    rfl

/-- The `lib/authors.ts` APA formatter refines the §4.7 description on
well-formed author lists. -/
theorem formatAuthorAPA_refines (authors : List String) (h : wfAuthors authors) :
    formatAuthorAPA authors = some (apaSpecJoin (authors.map apaSpecOne)) := by
  cases authors with
  | nil => rfl
  | cons a rest =>
    have hopt : optList ((a :: rest).map formatOneAPA)
        = some ((a :: rest).map apaSpecOne) :=
      optList_map_eq _ (fun x hx => formatOneAPA_wf x (h x hx))
    have hlen : ¬((a :: rest).length = 0) := by simp
    unfold formatAuthorAPA
    rw [if_neg hlen, hopt]
    cases rest with
    | nil => rfl
    | cons b rest2 =>
      cases rest2 with
      | nil => rfl
      | cons c rest3 => rfl

/-- The `index.ts` APA formatter joins every adjacent pair with `", & "` on
well-formed author lists. -/
theorem formatAuthorAPAIdx_refines (authors : List String) (h : wfAuthors authors) :
    formatAuthorAPAIdx authors
      = some (if authors = [] then "Unknown" else joinSep ", & " (authors.map apaSpecOne)) := by
  cases authors with
  | nil => rfl
  | cons a rest =>
    have hopt : optList ((a :: rest).map formatOneAPA)
        = some ((a :: rest).map apaSpecOne) :=
      optList_map_eq _ (fun x hx => formatOneAPA_wf x (h x hx))
    have hlen : ¬((a :: rest).length = 0) := by simp
    unfold formatAuthorAPAIdx
    rw [if_neg hlen, hopt]
    rfl

/-! ## C3: formatAuthorAPA -/

/-- C3 (amended): on well-formed names the `lib/authors.ts` `formatAuthorAPA`
splits each name on spaces, keeps single-token names, reduces the earlier
tokens of a multi-token name to initials before the final family token, and
joins the formatted names with commas with `", & "` only before the last
author; the `index.ts` copy instead joins every adjacent pair with `", & "`. -/
theorem formatAuthorAPA_join_rule :
    (∀ authors, wfAuthors authors →
      formatAuthorAPA authors = some (apaSpecJoin (authors.map apaSpecOne))) ∧
    formatAuthorAPA ["Jane Mary Doe"] = some "Doe, J. M." ∧
    formatAuthorAPA ["A B", "C D"] = some "B, A., & D, C." ∧
    (∀ a b c, wfName a → wfName b → wfName c →
      formatAuthorAPA [a, b, c]
        = some (apaSpecOne a ++ ", " ++ apaSpecOne b ++ ", & " ++ apaSpecOne c)) ∧
    (∀ authors, wfAuthors authors →
      formatAuthorAPAIdx authors
        = some (if authors = [] then "Unknown"
                else joinSep ", & " (authors.map apaSpecOne))) := by
  refine ⟨formatAuthorAPA_refines, by decide, by decide, ?_, formatAuthorAPAIdx_refines⟩
  intro a b c ha hb hc
  have hwf : wfAuthors [a, b, c] := by
    intro name hname
    simp only [List.mem_cons, List.not_mem_nil, or_false] at hname
    rcases hname with rfl | rfl | rfl
    · exact ha
    · exact hb
    · exact hc
  rw [formatAuthorAPA_refines _ hwf]
  rfl

/-- Witness for C3 at a concrete author list. -/
theorem formatAuthorAPA_join_rule_witness :
    wfAuthors ["Ann Lee", "Bo Chen", "Cy Park"] ∧
    formatAuthorAPA ["Ann Lee", "Bo Chen", "Cy Park"]
      = some (apaSpecJoin (["Ann Lee", "Bo Chen", "Cy Park"].map apaSpecOne)) :=
  ⟨by decide, formatAuthorAPA_join_rule.1 _ (by decide)⟩

/-- Counterexample for C3 as stated: the `index.ts` `formatAuthorAPA` joins
three authors with `", & "` between every pair, not only before the last. -/
theorem formatAuthorAPAIdx_three_counterexample :
    formatAuthorAPAIdx ["A B", "C D", "E F"] = some "B, A., & D, C., & F, E." ∧
    formatAuthorAPAIdx ["A B", "C D", "E F"] ≠ some "B, A., D, C., & F, E." := by
  constructor
  · decide
  · decide

/-! ## C4: formatAuthorMLA -/

/-- C4 (amended): `formatAuthorMLA` returns `"Unknown"` on the empty list
(as does `formatAuthorAPA`), inverts a single author by the APA split rule,
renders two authors as `"<inverted first>, and <second>"` and three or more
as `"<inverted first>, et al."` — except that the multi-author branch omits
the single-token guard, so a single-token first author is rendered
`"<token>, "` with a dangling comma. -/
theorem formatAuthorMLA_rule :
    formatAuthorMLA [] = "Unknown" ∧
    formatAuthorAPA [] = some "Unknown" ∧
    (∀ a, formatAuthorMLA [a] = mlaSpecInvert a) ∧
    (∀ a b, 2 ≤ (splitTokens a).length →
      formatAuthorMLA [a, b] = mlaSpecInvert a ++ ", and " ++ b) ∧
    (∀ a b c rest, 2 ≤ (splitTokens a).length →
      formatAuthorMLA (a :: b :: c :: rest) = mlaSpecInvert a ++ ", et al.") ∧
    (∀ a b x, splitTokens a = [x] →
      formatAuthorMLA [a, b] = x ++ ", " ++ "" ++ ", and " ++ b) ∧
    formatAuthorMLA ["Jane Doe", "John Roe", "Ann Poe"] = "Doe, Jane, et al." := by
  refine ⟨rfl, rfl, ?_, ?_, ?_, ?_, by decide⟩
  · intro a
    rcases hs : splitTokens a with _ | ⟨p1, _ | ⟨p2, ps2⟩⟩ <;>
      simp [formatAuthorMLA, mlaSpecInvert, hs]
  · intro a b hlen
    rcases hs : splitTokens a with _ | ⟨p1, _ | ⟨p2, ps2⟩⟩
    · rw [hs] at hlen; simp at hlen
    · rw [hs] at hlen; simp at hlen
    · simp [formatAuthorMLA, mlaSpecInvert, hs]
  · intro a b c rest hlen
    rcases hs : splitTokens a with _ | ⟨p1, _ | ⟨p2, ps2⟩⟩
    · rw [hs] at hlen; simp at hlen
    · rw [hs] at hlen; simp at hlen
    · simp [formatAuthorMLA, mlaSpecInvert, hs]
  · intro a b x hs
    simp [formatAuthorMLA, hs, joinSep]

/-- Witness for C4 at concrete author lists. -/
theorem formatAuthorMLA_rule_witness :
    2 ≤ (splitTokens "Jane Mary Doe").length ∧
    formatAuthorMLA ["Jane Mary Doe", "John Roe"]
      = mlaSpecInvert "Jane Mary Doe" ++ ", and " ++ "John Roe" ∧
    formatAuthorMLA ["Jane Doe", "John Roe", "Ann Poe"]
      = mlaSpecInvert "Jane Doe" ++ ", et al." ∧
    splitTokens "Plato" = ["Plato"] ∧
    formatAuthorMLA ["Plato", "Socrates"] = "Plato" ++ ", " ++ "" ++ ", and " ++ "Socrates" :=
  ⟨by decide, formatAuthorMLA_rule.2.2.2.1 _ _ (by decide),
    formatAuthorMLA_rule.2.2.2.2.1 _ _ _ [] (by decide), by decide,
    formatAuthorMLA_rule.2.2.2.2.2.1 _ _ _ (by decide)⟩

/-- Counterexample for C4 as stated: with a single-token first author and a
second author, the code renders a dangling comma instead of the inverted
form the claim describes. -/
theorem formatAuthorMLA_mononym_counterexample :
    formatAuthorMLA ["Plato", "Aristotle"] = "Plato, , and Aristotle" ∧
    formatAuthorMLA ["Plato", "Aristotle"] ≠ "Plato, and Aristotle" := by
  constructor
  · decide
  · decide

/-! ## C2: the DOI end-to-end scenario -/

/-- C2: evaluating the APA7 formatter on the scenario's DOI record.  The
adapter stores the author as `"Smith, John"`, and the formatter then treats
the given name `"John"` as the family name, so the output begins
`"John, S. (2020)."` instead of the `"Smith, J. (2020)."` the spec requires;
the DOI-resolved URL is contained as required. -/
theorem formatAPA7_doiScenario :
    doiScenarioRec.authors = ["Smith, John"] ∧
    doiScenarioRec.title = "A Study" ∧
    doiScenarioRec.siteName = "Journal X" ∧
    doiScenarioRec.year = some "2020" ∧
    doiScenarioRec.url = "https://doi.org/10.1000/182" ∧
    formatAPA7 doiScenarioRec
      = some "John, S. (2020). A Study. <i>Journal X</i>. https://doi.org/10.1000/182" ∧
    startsWithS "John, S. (2020). A Study. <i>Journal X</i>. https://doi.org/10.1000/182"
      "Smith, J. (2020)." = false ∧
    containsS "John, S. (2020). A Study. <i>Journal X</i>. https://doi.org/10.1000/182"
      "https://doi.org/10.1000/182" = true := by
  refine ⟨by decide, by decide, by decide, by decide, by decide, by decide, by decide, by decide⟩

/-! ## C5: search deduplication -/

/-- C5 (amended): two search candidates are duplicates exactly when their
lower-cased titles agree and their optional lower-cased first authors agree,
where two absent first authors agree (`undefined === undefined`); hence two
zero-author candidates with equal titles are collapsed, while a zero-author
candidate never collapses with one that has authors, and a duplicate
OpenLibrary candidate is dropped from the aggregator's candidate list. -/
theorem isDupe_rule :
    (∀ r o : SearchResult, isDupe r o = true ↔
      (strLower r.title = strLower o.title ∧
        r.authors.head?.map strLower = o.authors.head?.map strLower)) ∧
    (∀ r o : SearchResult, r.authors = [] → o.authors = [] →
      (isDupe r o = true ↔ strLower r.title = strLower o.title)) ∧
    (∀ r o : SearchResult, r.authors = [] → o.authors ≠ [] → isDupe r o = false) ∧
    (∀ g o : SearchResult, isDupe g o = true → candidates [g] [o] = [g]) ∧
    (∀ g o : SearchResult, isDupe g o = false → candidates [g] [o] = [g, o]) := by
  refine ⟨?_, ?_, ?_, ?_, ?_⟩
  · intro r o
    unfold isDupe
    simp
  · intro r o hr ho
    unfold isDupe
    simp [hr, ho]
  · intro r o hr ho
    unfold isDupe
    rcases hoa : o.authors with _ | ⟨x, xs⟩
    · exact absurd hoa ho
    · simp [hr, hoa]
  · intro g o h
    unfold candidates
    simp [dedupAdd, h]
  · intro g o h
    unfold candidates
    simp [dedupAdd, h]

/-- Witness for C5's amended rule at concrete candidates. -/
theorem isDupe_rule_witness :
    isDupe dupResG dupResO = true ∧ candidates [dupResG] [dupResO] = [dupResG] :=
  ⟨by decide, isDupe_rule.2.2.2.1 _ _ (by decide)⟩

/-- Counterexample for C5 as stated: two zero-author candidates whose titles
agree case-insensitively ARE collapsed by the aggregator — the undefined
first authors compare equal, so title equality alone suffices. -/
theorem zeroAuthor_dedupe_counterexample :
    zeroResG.authors = [] ∧ zeroResO.authors = [] ∧ isDupe zeroResG zeroResO = true ∧
      searchAllPure [zeroResG] [zeroResO] = [zeroResG] ∧
      (searchAllPure [zeroResG] [zeroResO]).length = 1 := by
  refine ⟨rfl, rfl, by decide, by decide, by decide⟩

/-! ## C6: search ranking -/

/-- The head of an insertion is the inserted element or the old head. -/
theorem insertScored_head {α : Type} (f : α → Nat) (x : α) (l : List α)
    (z : α) (zs : List α) (h : insertScored f x l = z :: zs) :
    z = x ∨ l.head? = some z := by
  cases l with
  | nil =>
    simp only [insertScored] at h
    exact Or.inl (List.cons.injEq .. ▸ h).1.symm
  | cons y ys =>
    by_cases hc : f y ≤ f x
    · simp only [insertScored, if_pos hc] at h
      exact Or.inl ((List.cons.injEq ..).mp h).1.symm
    · simp only [insertScored, if_neg hc] at h
      exact Or.inr (by simp [((List.cons.injEq ..).mp h).1])

/-- Insertion preserves the descending-score chain. -/
theorem chain_insertScored {α : Type} (f : α → Nat) (x : α) :
    ∀ l : List α, List.Chain' (fun a b => f b ≤ f a) l →
      List.Chain' (fun a b => f b ≤ f a) (insertScored f x l) := by
  intro l
  induction l with
  | nil => intro _; simp [insertScored]
  | cons y ys ih =>
    intro h
    by_cases hc : f y ≤ f x
    · simp only [insertScored, if_pos hc]
      exact List.chain'_cons.mpr ⟨hc, h⟩
    · simp only [insertScored, if_neg hc]
      have hins := ih h.tail
      cases hi : insertScored f x ys with
      | nil => simp
      | cons z zs =>
        rw [List.chain'_cons]
        refine ⟨?_, hi ▸ hins⟩
        rcases insertScored_head f x ys z zs hi with rfl | hz
        · exact Nat.le_of_lt (Nat.lt_of_not_le hc)
        · cases ys with
          | nil => simp at hz
          | cons w ws =>
            have hw : w = z := by simpa using hz
            exact hw ▸ (List.chain'_cons.mp h).1

/-- The whole insertion sort produces a descending-score chain. -/
theorem chain_sortScored {α : Type} (f : α → Nat) :
    ∀ l : List α, List.Chain' (fun a b => f b ≤ f a) (sortScored f l) := by
  intro l
  induction l with
  | nil => simp [sortScored]
  | cons x xs ih => exact chain_insertScored f x _ ih

/-- Stability of one insertion: elements of any fixed score keep their
relative order. -/
theorem filter_insertScored {α : Type} (f : α → Nat) (s : Nat) (x : α) :
    ∀ l : List α,
      (insertScored f x l).filter (fun y => f y == s)
        = ((x :: l).filter (fun y => f y == s)) := by
  intro l
  induction l with
  | nil => rfl
  | cons y ys ih =>
    by_cases hc : f y ≤ f x
    · simp [insertScored, hc]
    · simp only [insertScored, if_neg hc]
      by_cases hy : (f y == s) = true
      · have hxs : (f x == s) = false := by
          have hlt : f x < f y := Nat.lt_of_not_le hc
          have hys : f y = s := by simpa using hy
          simp only [beq_eq_false_iff_ne, ne_eq]
          omega
        simp [List.filter_cons, hy, hxs, ih]
      · simp only [Bool.not_eq_true] at hy
        simp [List.filter_cons, hy, ih]

/-- Stability of the sort: elements of any fixed score keep their relative
order. -/
theorem filter_sortScored {α : Type} (f : α → Nat) (s : Nat) :
    ∀ l : List α,
      (sortScored f l).filter (fun y => f y == s) = l.filter (fun y => f y == s) := by
  intro l
  induction l with
  | nil => rfl
  | cons x xs ih =>
    simp only [sortScored]
    rw [filter_insertScored]
    by_cases hx : (f x == s) = true
    · simp [List.filter_cons, hx, ih]
    · simp only [Bool.not_eq_true] at hx
      simp [List.filter_cons, hx, ih]

/-- C6: `searchAll` ranks candidates by descending completeness score with a
stable sort — the output is the 10-element truncation of the stably sorted
candidate list, scores are pairwise non-increasing, candidates of equal
score keep their encounter order, and the output never exceeds 10 entries;
on encounter scores `[2,1,2,0]` the two score-2 candidates keep their
original relative order. -/
theorem searchAll_ranking :
    (∀ gs ols : List SearchResult,
      searchAllPure gs ols = (sortScored score (candidates gs ols)).take 10) ∧
    (∀ gs ols : List SearchResult,
      List.Chain' (fun a b => score b ≤ score a) (searchAllPure gs ols)) ∧
    (∀ gs ols : List SearchResult, ∀ s : Nat,
      (sortScored score (candidates gs ols)).filter (fun r => score r == s)
        = (candidates gs ols).filter (fun r => score r == s)) ∧
    (∀ gs ols : List SearchResult, (searchAllPure gs ols).length ≤ 10) ∧
    [rankR1, rankR2, rankR3, rankR4].map score = [2, 1, 2, 0] ∧
    searchAllPure [rankR1, rankR2, rankR3, rankR4] [] = [rankR1, rankR3, rankR2, rankR4] := by
  refine ⟨fun gs ols => rfl, ?_, ?_, ?_, by decide, by decide⟩
  · intro gs ols
    exact (chain_sortScored score (candidates gs ols)).take 10
  · intro gs ols s
    exact filter_sortScored score s (candidates gs ols)
  · intro gs ols
    unfold searchAllPure
    exact List.length_take_le 10 _

/-! ## C7: the ISBN merge -/

/-- A truthy optional string survives `a || b`. -/
theorem jsOrOpt_truthy {a b : Option String} (h : jsTruthyOpt a = true) :
    jsOrOpt a b = a := by
  cases a with
  | none => simp [jsTruthyOpt] at h
  | some s =>
    have hs : ¬(s = "") := by simpa [jsTruthyOpt] using h
    simp [jsOrOpt, hs]

/-- A falsy optional string falls through `a || b`. -/
theorem jsOrOpt_falsy {a b : Option String} (h : jsTruthyOpt a = false) :
    jsOrOpt a b = b := by
  cases a with
  | none => rfl
  | some s =>
    have hs : s = "" := by simpa [jsTruthyOpt] using h
    simp [jsOrOpt, hs]

/-- An anchored four-digit match is a four-character digit-headed string. -/
theorem extractYear4_some {pd : Option String} {y : String}
    (h : extractYear4 pd = some y) :
    ∃ a b c d : Char, y = ⟨[a, b, c, d]⟩ ∧ a.isDigit = true := by
  cases pd with
  | none => simp [extractYear4] at h
  | some s =>
    simp only [extractYear4] at h
    split at h
    · exact absurd h (by simp)
    · split at h
      next x a b c d tail heq =>
        split at h
        next hdig =>
          refine ⟨a, b, c, d, by simpa using h.symm, ?_⟩
          have hh := hdig
          simp only [Bool.and_eq_true] at hh
          exact hh.1.1.1
        next => exact absurd h (by simp)
      next => exact absurd h (by simp)

/-- An unanchored four-digit match is a four-character digit-headed string. -/
theorem findYear4L_some : ∀ (l : List Char) (y : String), findYear4L l = some y →
    ∃ a b c d : Char, y = ⟨[a, b, c, d]⟩ ∧ a.isDigit = true := by
  intro l
  induction l with
  | nil => intro y h; simp [findYear4L] at h
  | cons a rest ih =>
    intro y h
    rcases hr : rest with _ | ⟨b, _ | ⟨c, _ | ⟨d, rest5⟩⟩⟩ <;> subst hr
    · simp [findYear4L] at h
    · simp [findYear4L] at h
    · simp [findYear4L] at h
    · simp only [findYear4L] at h
      split at h
      next hdig =>
        refine ⟨a, b, c, d, by simpa using h.symm, ?_⟩
        have hh := hdig
        simp only [Bool.and_eq_true] at hh
        exact hh.1.1.1
      next => exact ih y h

/-- A four-character digit-headed year string has a `parseInt` value. -/
theorem yearKey_isSome_of_digits {y : String}
    (hy : ∃ a b c d : Char, y = ⟨[a, b, c, d]⟩ ∧ a.isDigit = true) :
    (yearKey (some y)).isSome = true := by
  obtain ⟨a, b, c, d, rfl, ha⟩ := hy
  have hne : (⟨[a, b, c, d]⟩ : String) ≠ "" := by
    intro hcon
    have := congrArg String.data hcon
    simp at this
  simp only [yearKey, jsOrS]
  rw [if_neg hne]
  simp only [jsParseIntNat]
  simp [ha]

/-- An absent year falls back to the sentinel, which parses. -/
theorem yearKey_none_isSome : (yearKey (none : Option String)).isSome = true := by decide

/-- C7: `fetchISBNMetadata` merges its two sources — with both records
present the merged record keeps the numerically earlier year and prefers the
commercial catalog's publisher when it is non-empty, falling back to the
library catalog's; with exactly one record present that record is returned
unmodified; and every non-null outcome built from the two per-source record
constructors has type `book`. -/
theorem fetchISBNMetadata_merge :
    (∀ g o : SourceMetadata,
      (yearKey g.year).isSome = true → (yearKey o.year).isSome = true →
      ∃ m, mergeISBN (some g) (some o) = some m ∧
        (m.year = g.year ∨ m.year = o.year) ∧
        (yearKey m.year).getD 0
          = min ((yearKey g.year).getD 0) ((yearKey o.year).getD 0) ∧
        (jsTruthyOpt g.publisher = true → m.publisher = g.publisher) ∧
        (jsTruthyOpt g.publisher = false → m.publisher = o.publisher) ∧
        m.type = g.type ∧ m.title = g.title ∧ m.authors = g.authors ∧
        m.siteName = g.siteName ∧ m.url = g.url) ∧
    (∀ g, mergeISBN (some g) none = some g) ∧
    (∀ o, mergeISBN none o = o) ∧
    (∀ go oo r, (∀ x, go = some x → x.type = SourceType.book) →
      (∀ x, oo = some x → x.type = SourceType.book) →
      mergeISBN go oo = some r → r.type = SourceType.book) ∧
    (∀ authors title publisher publishedDate infoLink isbn,
      (mkGoogleISBNRec authors title publisher publishedDate infoLink isbn).type
        = SourceType.book ∧
      (yearKey (mkGoogleISBNRec authors title publisher publishedDate infoLink isbn).year).isSome
        = true) ∧
    (∀ authors title publisher publishDate bookUrl isbn,
      (mkOpenLibISBNRec authors title publisher publishDate bookUrl isbn).type
        = SourceType.book ∧
      (yearKey (mkOpenLibISBNRec authors title publisher publishDate bookUrl isbn).year).isSome
        = true) := by
  refine ⟨?_, fun g => rfl, fun o => rfl, ?_, ?_, ?_⟩
  · intro g o hg ho
    obtain ⟨gy, hgy⟩ := Option.isSome_iff_exists.mp hg
    obtain ⟨oy, hoy⟩ := Option.isSome_iff_exists.mp ho
    simp only [mergeISBN, hgy, hoy]
    by_cases hlt : oy < gy
    · simp only [decide_eq_true_eq, if_pos hlt]
      refine ⟨_, rfl, Or.inr rfl, ?_, fun ht => jsOrOpt_truthy ht,
        fun hf => jsOrOpt_falsy hf, rfl, rfl, rfl, rfl, rfl⟩
      show (yearKey o.year).getD 0 = min ((some gy).getD 0) ((some oy).getD 0)
      rw [hoy]
      simp only [Option.getD_some]
      omega
    · simp only [decide_eq_true_eq, if_neg hlt]
      refine ⟨_, rfl, Or.inl rfl, ?_, fun ht => jsOrOpt_truthy ht,
        fun hf => jsOrOpt_falsy hf, rfl, rfl, rfl, rfl, rfl⟩
      show (yearKey g.year).getD 0 = min ((some gy).getD 0) ((some oy).getD 0)
      rw [hgy]
      simp only [Option.getD_some]
      omega
  · intro go oo r hgo hoo h
    cases go with
    | none =>
      cases oo with
      | none => exact absurd h (by simp [mergeISBN])
      | some o =>
        have ho : o = r := by simpa [mergeISBN] using h
        exact ho ▸ hoo o rfl
    | some g =>
      cases oo with
      | none =>
        have hg : g = r := by simpa [mergeISBN] using h
        exact hg ▸ hgo g rfl
      | some o =>
        simp only [mergeISBN] at h
        have hm := Option.some.inj h
        rw [← hm]
        exact hgo g rfl
  · intro authors title publisher publishedDate infoLink isbn
    refine ⟨rfl, ?_⟩
    cases hy : extractYear4 publishedDate with
    | none =>
      show (yearKey ((mkGoogleISBNRec authors title publisher publishedDate infoLink isbn).year)).isSome = true
      have : (mkGoogleISBNRec authors title publisher publishedDate infoLink isbn).year = none := hy
      rw [this]
      exact yearKey_none_isSome
    | some y =>
      have : (mkGoogleISBNRec authors title publisher publishedDate infoLink isbn).year = some y := hy
      rw [this]
      exact yearKey_isSome_of_digits (extractYear4_some hy)
  · intro authors title publisher publishDate bookUrl isbn
    refine ⟨rfl, ?_⟩
    cases hy : findYear4L (jsOrS publishDate "").data with
    | none =>
      have : (mkOpenLibISBNRec authors title publisher publishDate bookUrl isbn).year = none := hy
      rw [this]
      exact yearKey_none_isSome
    | some y =>
      have : (mkOpenLibISBNRec authors title publisher publishDate bookUrl isbn).year = some y := hy
      rw [this]
      exact yearKey_isSome_of_digits (findYear4L_some _ _ hy)

/-- Witness for C7 at concrete per-source records. -/
theorem fetchISBNMetadata_merge_witness :
    (yearKey isbnDemoG.year).isSome = true ∧ (yearKey isbnDemoO.year).isSome = true ∧
    (∃ m, mergeISBN (some isbnDemoG) (some isbnDemoO) = some m ∧
      (m.year = isbnDemoG.year ∨ m.year = isbnDemoO.year) ∧
      (yearKey m.year).getD 0
        = min ((yearKey isbnDemoG.year).getD 0) ((yearKey isbnDemoO.year).getD 0) ∧
      (jsTruthyOpt isbnDemoG.publisher = true → m.publisher = isbnDemoG.publisher) ∧
      (jsTruthyOpt isbnDemoG.publisher = false → m.publisher = isbnDemoO.publisher) ∧
      m.type = isbnDemoG.type ∧ m.title = isbnDemoG.title ∧
      m.authors = isbnDemoG.authors ∧ m.siteName = isbnDemoG.siteName ∧
      m.url = isbnDemoG.url) ∧
    isbnDemoG.type = SourceType.book :=
  ⟨by decide, by decide,
    fetchISBNMetadata_merge.1 isbnDemoG isbnDemoO (by decide) (by decide),
    fetchISBNMetadata_merge.2.2.2.1 (some isbnDemoG) none isbnDemoG
      (fun x hx => by rw [← Option.some.inj hx]; decide)
      (fun x hx => nomatch hx)
      rfl⟩

/-! ## C8: missing-date rendering -/

/-- Containment in the left half of an append. -/
theorem containsS_left {a t b : String} (h : containsS a t = true) :
    containsS (a ++ b) t = true := by
  unfold containsS at h ⊢
  rw [String.data_append]
  obtain ⟨x, y, hxy⟩ := (containsL_iff _ _).mp h
  exact (containsL_iff _ _).mpr ⟨x, y ++ b.data, by simp [hxy]⟩

/-- Containment in the right half of an append. -/
theorem containsS_right (a : String) {b t : String} (h : containsS b t = true) :
    containsS (a ++ b) t = true := by
  unfold containsS at h ⊢
  rw [String.data_append]
  obtain ⟨x, y, hxy⟩ := (containsL_iff _ _).mp h
  exact (containsL_iff _ _).mpr ⟨a.data ++ x, y, by simp [hxy]⟩

/-- The author term of the APA/Harvard branches cannot throw on well-formed
authors. -/
theorem apaIdxAuthor_some (authors : List String) (hwf : wfAuthors authors)
    (d : String) :
    ∃ a, (if authors.length > 0 then formatAuthorAPAIdx authors else some d) = some a := by
  by_cases hlen : authors.length > 0
  · rw [if_pos hlen, formatAuthorAPAIdx_refines _ hwf]
    exact ⟨_, rfl⟩
  · rw [if_neg hlen]
    exact ⟨d, rfl⟩

/-- On a well-formed author list `formatAPA7` never throws and always embeds
the `"(n.d.)"` token when the year is absent. -/
theorem formatAPA7_nd (m : SourceMetadata) (hy : m.year = none)
    (hwf : wfAuthors m.authors) :
    ∃ s, formatAPA7 m = some s ∧ containsS s "n.d." = true := by
  cases htype : m.type with
  | encyclopedia =>
    simp only [formatAPA7, hy, htype]
    refine ⟨_, rfl, ?_⟩
    repeat first | exact containsS_right _ (by decide) | apply containsS_left
  | book =>
    obtain ⟨a, ha⟩ := apaIdxAuthor_some m.authors hwf "Unknown"
    simp only [formatAPA7, hy, htype, ha, Option.map_some']
    refine ⟨_, rfl, ?_⟩
    repeat first | exact containsS_right _ (by decide) | apply containsS_left
  | video =>
    simp only [formatAPA7, hy, htype]
    refine ⟨_, rfl, ?_⟩
    repeat first | exact containsS_right _ (by decide) | apply containsS_left
  | article =>
    obtain ⟨a, ha⟩ := apaIdxAuthor_some m.authors hwf "Unknown"
    simp only [formatAPA7, hy, htype, ha, Option.map_some']
    refine ⟨_, rfl, ?_⟩
    repeat first | exact containsS_right _ (by decide) | apply containsS_left
  | website =>
    obtain ⟨a, ha⟩ := apaIdxAuthor_some m.authors hwf m.siteName
    simp only [formatAPA7, hy, htype, ha, Option.map_some']
    refine ⟨_, rfl, ?_⟩
    repeat first | exact containsS_right _ (by decide) | apply containsS_left

/-- `formatMLA9` embeds the `"n.d."` token for every source type when the
year is absent. -/
theorem formatMLA9_nd (m : SourceMetadata) (t : String) (hy : m.year = none) :
    containsS (formatMLA9 m t) "n.d." = true := by
  cases htype : m.type with
  | encyclopedia =>
    simp only [formatMLA9, hy, htype, jsOrS]
    repeat first | exact containsS_right _ (by decide) | apply containsS_left
  | book =>
    simp only [formatMLA9, hy, htype, jsOrS]
    repeat first | exact containsS_right _ (by decide) | apply containsS_left
  | video =>
    simp only [formatMLA9, hy, htype, jsOrS]
    repeat first | exact containsS_right _ (by decide) | apply containsS_left
  | article =>
    simp only [formatMLA9, hy, htype, jsOrS]
    repeat first | exact containsS_right _ (by decide) | apply containsS_left
  | website =>
    simp only [formatMLA9, hy, htype, jsOrS]
    repeat first | exact containsS_right _ (by decide) | apply containsS_left

/-- `formatChicago` embeds the `"n.d."` token for every source type except
`encyclopedia`, whose branch renders no date at all. -/
theorem formatChicago_nd (m : SourceMetadata) (hy : m.year = none)
    (htype : m.type ≠ SourceType.encyclopedia) :
    containsS (formatChicago m) "n.d." = true := by
  cases ht : m.type with
  | encyclopedia => exact absurd ht htype
  | book =>
    simp only [formatChicago, hy, ht, jsOrS]
    repeat first | exact containsS_right _ (by decide) | apply containsS_left
  | video =>
    simp only [formatChicago, hy, ht, jsOrS]
    repeat first | exact containsS_right _ (by decide) | apply containsS_left
  | article =>
    simp only [formatChicago, hy, ht, jsOrS]
    repeat first | exact containsS_right _ (by decide) | apply containsS_left
  | website =>
    simp only [formatChicago, hy, ht, jsOrS]
    repeat first | exact containsS_right _ (by decide) | apply containsS_left

/-- On a well-formed author list `formatHarvard` never throws and always
embeds the `"n.d."` token when the year is absent. -/
theorem formatHarvard_nd (m : SourceMetadata) (hy : m.year = none)
    (hwf : wfAuthors m.authors) :
    ∃ s, formatHarvard m = some s ∧ containsS s "n.d." = true := by
  cases htype : m.type with
  | encyclopedia =>
    simp only [formatHarvard, hy, htype, jsOrS]
    refine ⟨_, rfl, ?_⟩
    repeat first | exact containsS_right _ (by decide) | apply containsS_left
  | book =>
    obtain ⟨a, ha⟩ := apaIdxAuthor_some m.authors hwf "Unknown"
    simp only [formatHarvard, hy, htype, ha, Option.map_some', jsOrS]
    refine ⟨_, rfl, ?_⟩
    repeat first | exact containsS_right _ (by decide) | apply containsS_left
  | video =>
    obtain ⟨a, ha⟩ := apaIdxAuthor_some m.authors hwf "Unknown"
    simp only [formatHarvard, hy, htype, ha, Option.map_some', jsOrS]
    refine ⟨_, rfl, ?_⟩
    repeat first | exact containsS_right _ (by decide) | apply containsS_left
  | article =>
    obtain ⟨a, ha⟩ := apaIdxAuthor_some m.authors hwf "Unknown"
    simp only [formatHarvard, hy, htype, ha, Option.map_some', jsOrS]
    refine ⟨_, rfl, ?_⟩
    repeat first | exact containsS_right _ (by decide) | apply containsS_left
  | website =>
    obtain ⟨a, ha⟩ := apaIdxAuthor_some m.authors hwf m.siteName
    simp only [formatHarvard, hy, htype, ha, Option.map_some', jsOrS]
    refine ⟨_, rfl, ?_⟩
    repeat first | exact containsS_right _ (by decide) | apply containsS_left

/-- On a well-formed author list `formatAPA7` returns a value for any year. -/
theorem formatAPA7_some (m : SourceMetadata) (hwf : wfAuthors m.authors) :
    ∃ s, formatAPA7 m = some s := by
  cases htype : m.type with
  | encyclopedia => exact ⟨_, by simp only [formatAPA7, htype]; rfl⟩
  | book =>
    obtain ⟨a, ha⟩ := apaIdxAuthor_some m.authors hwf "Unknown"
    exact ⟨_, by simp only [formatAPA7, htype, ha, Option.map_some']; rfl⟩
  | video => exact ⟨_, by simp only [formatAPA7, htype]; rfl⟩
  | article =>
    obtain ⟨a, ha⟩ := apaIdxAuthor_some m.authors hwf "Unknown"
    exact ⟨_, by simp only [formatAPA7, htype, ha, Option.map_some']; rfl⟩
  | website =>
    obtain ⟨a, ha⟩ := apaIdxAuthor_some m.authors hwf m.siteName
    exact ⟨_, by simp only [formatAPA7, htype, ha, Option.map_some']; rfl⟩

/-- On a well-formed author list `formatHarvard` returns a value for any
year. -/
theorem formatHarvard_some (m : SourceMetadata) (hwf : wfAuthors m.authors) :
    ∃ s, formatHarvard m = some s := by
  cases htype : m.type with
  | encyclopedia => exact ⟨_, by simp only [formatHarvard, htype]; rfl⟩
  | book =>
    obtain ⟨a, ha⟩ := apaIdxAuthor_some m.authors hwf "Unknown"
    exact ⟨_, by simp only [formatHarvard, htype, ha, Option.map_some']; rfl⟩
  | video =>
    obtain ⟨a, ha⟩ := apaIdxAuthor_some m.authors hwf "Unknown"
    exact ⟨_, by simp only [formatHarvard, htype, ha, Option.map_some']; rfl⟩
  | article =>
    obtain ⟨a, ha⟩ := apaIdxAuthor_some m.authors hwf "Unknown"
    exact ⟨_, by simp only [formatHarvard, htype, ha, Option.map_some']; rfl⟩
  | website =>
    obtain ⟨a, ha⟩ := apaIdxAuthor_some m.authors hwf m.siteName
    exact ⟨_, by simp only [formatHarvard, htype, ha, Option.map_some']; rfl⟩

/-- C8 (amended): for a record with no year, APA7, MLA9 and Harvard embed
the literal `"n.d."` for every source type and no formatter throws on
well-formed authors; Chicago embeds `"n.d."` for every source type except
`encyclopedia`, whose Chicago branch renders no date component at all; and
all four outputs ignore the month and day fields entirely. -/
theorem missingDate_renders_nd :
    (∀ (m : SourceMetadata) (t : String), m.year = none → wfAuthors m.authors →
      (∃ s, formatAPA7 m = some s ∧ containsS s "n.d." = true) ∧
      containsS (formatMLA9 m t) "n.d." = true ∧
      (m.type ≠ SourceType.encyclopedia → containsS (formatChicago m) "n.d." = true) ∧
      (∃ s, formatHarvard m = some s ∧ containsS s "n.d." = true) ∧
      (∃ c, formatAllCitations m t = some c)) ∧
    (∀ (m : SourceMetadata) (t : String) (mo d : Option String),
      formatAllCitations { m with month := mo, day := d } t = formatAllCitations m t) := by
  constructor
  · intro m t hy hwf
    refine ⟨formatAPA7_nd m hy hwf, formatMLA9_nd m t hy,
      formatChicago_nd m hy, formatHarvard_nd m hy hwf, ?_⟩
    obtain ⟨sa, hsa⟩ := formatAPA7_some m hwf
    obtain ⟨sh, hsh⟩ := formatHarvard_some m hwf
    exact ⟨_, by simp only [formatAllCitations, hsa, hsh]; rfl⟩
  · intro m t mo d
    cases m
    rfl

/-- Witness for C8 at a concrete dateless book record. -/
theorem missingDate_renders_nd_witness :
    ndDemoRec.year = none ∧ wfAuthors ndDemoRec.authors ∧
      ((∃ s, formatAPA7 ndDemoRec = some s ∧ containsS s "n.d." = true) ∧
       containsS (formatMLA9 ndDemoRec "12 Oct. 2025") "n.d." = true ∧
       (ndDemoRec.type ≠ SourceType.encyclopedia →
         containsS (formatChicago ndDemoRec) "n.d." = true) ∧
       (∃ s, formatHarvard ndDemoRec = some s ∧ containsS s "n.d." = true) ∧
       (∃ c, formatAllCitations ndDemoRec "12 Oct. 2025" = some c)) :=
  ⟨rfl, by decide, missingDate_renders_nd.1 _ "12 Oct. 2025" rfl (by decide)⟩

/-- Counterexample for C8 as stated: a record with no year, month or day
whose Chicago rendering contains no `"n.d."` token — the Chicago
encyclopedia branch has no date position at all. -/
theorem chicago_encyclopedia_nd_counterexample :
    chicagoWikiRec.year = none ∧ chicagoWikiRec.month = none ∧
    chicagoWikiRec.day = none ∧
    formatChicago chicagoWikiRec
      = "<i>Wikipedia</i>. \"Alan Turing.\" Accessed . https://en.wikipedia.org/wiki/Alan_Turing." ∧
    containsS (formatChicago chicagoWikiRec) "n.d." = false := by
  refine ⟨rfl, rfl, rfl, by decide, by decide⟩

/-! ## C9: the URL invariant -/

/-- An append whose left operand has characters is not the empty string. -/
theorem append_ne_empty_left (a b : String) (ha : a.data ≠ []) : a ++ b ≠ "" := by
  intro h
  have hd := congrArg String.data h
  rw [String.data_append] at hd
  have : a.data = [] := by
    cases hx : a.data with
    | nil => rfl
    | cons c cs => rw [hx] at hd; simp at hd
  exact ha this

/-- `a || b` with a non-empty default is non-empty. -/
theorem jsOrS_ne_empty (a : Option String) (b : String) (hb : b ≠ "") :
    jsOrS a b ≠ "" := by
  cases a with
  | none => exact hb
  | some s =>
    by_cases hs : s = ""
    · simpa [jsOrS, hs] using hb
    · simp only [jsOrS, if_neg hs]
      exact hs

/-- The empty string classifies as free text. -/
theorem detectInputType_empty : detectInputType "" = InputType.text := by decide

/-- C9 (amended): every record the provider adapters build carries a
non-empty `url` (the pass-through adapters because a source classified as
`youtube` / `wikipedia` / `url` is never the empty string), and
`metadataFromSearchResult` derives a non-empty `url` for every candidate
tagged `google_books` or `openlibrary` — the only tags `searchAll`
produces; for the unused `crossref` tag the derived url is empty. -/
theorem url_never_empty :
    (∀ r : SearchResult, r.source = ProviderTag.google_books →
      (metadataFromSearchResult r).url ≠ "") ∧
    (∀ r : SearchResult, r.source = ProviderTag.openlibrary →
      (metadataFromSearchResult r).url ≠ "") ∧
    (∀ pairs title ct pub parts doi, (mkDOIRec pairs title ct pub parts doi).url ≠ "") ∧
    (∀ authors title publisher publishedDate infoLink isbn,
      (mkGoogleISBNRec authors title publisher publishedDate infoLink isbn).url ≠ "") ∧
    (∀ authors title publisher publishDate bookUrl isbn,
      (mkOpenLibISBNRec authors title publisher publishDate bookUrl isbn).url ≠ "") ∧
    (∀ authorName title source, detectInputType source = InputType.youtube →
      (mkYouTubeRec authorName title source).url ≠ "") ∧
    (∀ articleTitle source, detectInputType source = InputType.wikipedia →
      (mkWikipediaRec articleTitle source).url ≠ "") ∧
    (∀ authorStr title siteName year month day source,
      detectInputType source = InputType.url →
      (mkURLRec authorStr title siteName year month day source).url ≠ "") := by
  refine ⟨?_, ?_, ?_, ?_, ?_, ?_, ?_, ?_⟩
  · intro r hsrc
    show getUrlFromResult r ≠ ""
    simp only [getUrlFromResult, hsrc]
    exact jsOrS_ne_empty _ _ (append_ne_empty_left _ _ (by decide))
  · intro r hsrc
    show getUrlFromResult r ≠ ""
    simp only [getUrlFromResult, hsrc]
    exact append_ne_empty_left _ _ (by decide)
  · intro pairs title ct pub parts doi
    exact append_ne_empty_left _ _ (by decide)
  · intro authors title publisher publishedDate infoLink isbn
    exact jsOrS_ne_empty _ _ (append_ne_empty_left _ _ (by decide))
  · intro authors title publisher publishDate bookUrl isbn
    exact jsOrS_ne_empty _ _ (append_ne_empty_left _ _ (by decide))
  · intro authorName title source h
    show source ≠ ""
    intro hs
    rw [hs, detectInputType_empty] at h
    exact nomatch h
  · intro articleTitle source h
    show source ≠ ""
    intro hs
    rw [hs, detectInputType_empty] at h
    exact nomatch h
  · intro authorStr title siteName year month day source h
    show source ≠ ""
    intro hs
    rw [hs, detectInputType_empty] at h
    exact nomatch h

/-- Witness for C9 at concrete inputs. -/
theorem url_never_empty_witness :
    dupResG.source = ProviderTag.google_books ∧
    (metadataFromSearchResult dupResG).url ≠ "" ∧
    dupResO.source = ProviderTag.openlibrary ∧
    (metadataFromSearchResult dupResO).url ≠ "" ∧
    detectInputType "https://youtu.be/dQw4w9WgXcQ" = InputType.youtube ∧
    (mkYouTubeRec (some "Channel") (some "Clip") "https://youtu.be/dQw4w9WgXcQ").url ≠ "" :=
  ⟨rfl, url_never_empty.1 dupResG rfl, rfl, url_never_empty.2.1 dupResO rfl,
    by decide, url_never_empty.2.2.2.2.2.1 (some "Channel") (some "Clip") _ (by decide)⟩

/-- Counterexample for C9 as stated: for a candidate tagged `crossref` —
a value of the repository's own `SearchResult` type — `getUrlFromResult`
falls through to `""`, so `metadataFromSearchResult` yields an empty url. -/
theorem crossref_url_counterexample :
    (metadataFromSearchResult crossrefRes).url = "" := by decide
